import Mathlib

/-!
Verification of the 空確くん (Akikaku-kun) vacancy-check application.

The repository contains a Next.js frontend (`src/frontend`) and launcher
scripts; its FastAPI backend (`backend.main:app`, started by `start.bat`)
is not present, so backend behaviour is modelled from the design
specification where needed.  Frontend logic (URL validation, result
styling, platform option lists, API call sites) is embedded directly
from the TypeScript source.
-/

namespace Akikaku

/-! ### Frontend embeddings (from the TypeScript source)

String operations are given structural definitions over `List Char`
(equivalent to the JavaScript semantics on the strings involved) so
that every definition evaluates inside the kernel. -/

/-- Substring containment of `sub` in a character list, as computed by
JavaScript `String.prototype.includes`. -/
def containsSub (sub : List Char) : List Char → Bool
  | [] => sub.isEmpty
  | c :: rest => sub.isPrefixOf (c :: rest) || containsSub sub rest

/-- JavaScript `String.prototype.includes`. -/
def jsIncludes (s sub : String) : Bool :=
  containsSub sub.toList s.toList

/-- JavaScript `String.prototype.trim`: strip whitespace from both ends. -/
def jsTrim (s : String) : String :=
  String.mk (((s.toList.dropWhile Char.isWhitespace).reverse.dropWhile
    Char.isWhitespace).reverse)

/-- JavaScript `String.prototype.startsWith`. -/
def jsStartsWith (s pre : String) : Bool :=
  pre.toList.isPrefixOf s.toList

/-- `validateUrl` from `src/frontend/src/app/page.tsx`: returns `none`
(accepted) when the trimmed input contains `suumo.jp` or `homes.co.jp`
as a substring, otherwise an error message. -/
def validateUrl (input : String) : Option String :=
  let trimmed := jsTrim input
  if trimmed = "" then some "URLを入力してください"
  else if jsIncludes trimmed "suumo.jp" = true then none
  else if jsIncludes trimmed "homes.co.jp" = true then none
  else some "SUUMOまたはHOMESのURLを入力してください"

/-- `RESULT_STYLES` from `src/frontend/src/app/page.tsx`, as a list of
key/style pairs in declaration order (a JS object literal's own
properties enumerate in declaration order). -/
def RESULT_STYLES : List (String × String) :=
  [("募集中", "bg-green-100 text-green-800"),
   ("申込あり", "bg-yellow-100 text-yellow-800"),
   ("募集終了", "bg-red-100 text-red-800"),
   ("該当なし", "bg-gray-100 text-gray-800"),
   ("確認不可", "bg-orange-100 text-orange-800"),
   ("電話確認", "bg-blue-100 text-blue-800")]

/-- `getResultStyle` from `src/frontend/src/app/page.tsx`: exact key
lookup first, then the first key (in declaration order) that is a
prefix of the result, then a fixed default. -/
def getResultStyle (result : String) : String :=
  match RESULT_STYLES.find? (fun kv => kv.1 = result) with
  | some kv => kv.2
  | none =>
    match RESULT_STYLES.find? (fun kv => jsStartsWith result kv.1) with
    | some kv => kv.2
    | none => "bg-gray-100 text-gray-700"

/-- Per-result style record used by `src/frontend/src/app/check/[id]/page.tsx`. -/
structure StyleDetail where
  bg : String
  text : String
  icon : String
deriving DecidableEq, Repr

/-- `RESULT_STYLES` from `src/frontend/src/app/check/[id]/page.tsx`. -/
def RESULT_STYLES_DETAIL : List (String × StyleDetail) :=
  [("募集中", ⟨"bg-green-50", "text-green-700", "bg-green-500"⟩),
   ("申込あり", ⟨"bg-yellow-50", "text-yellow-700", "bg-yellow-500"⟩),
   ("募集終了", ⟨"bg-red-50", "text-red-700", "bg-red-500"⟩),
   ("該当なし", ⟨"bg-gray-50", "text-gray-700", "bg-gray-500"⟩),
   ("確認不可", ⟨"bg-orange-50", "text-orange-700", "bg-orange-500"⟩),
   ("電話確認", ⟨"bg-blue-50", "text-blue-700", "bg-blue-500"⟩)]

/-- `getResultStyle` from `src/frontend/src/app/check/[id]/page.tsx`:
same exact-then-prefix lookup, but the fallback is the `該当なし` style. -/
def getResultStyleDetail (result : String) : StyleDetail :=
  match RESULT_STYLES_DETAIL.find? (fun kv => kv.1 = result) with
  | some kv => kv.2
  | none =>
    match RESULT_STYLES_DETAIL.find? (fun kv => jsStartsWith result kv.1) with
    | some kv => kv.2
    | none => ⟨"bg-gray-50", "text-gray-700", "bg-gray-500"⟩

/-- Platform choices offered by the channel-selection UI in
`src/frontend/src/app/check/[id]/page.tsx` (lines 257-263). -/
def checkPagePlatforms : List (String × String) :=
  [("itanji", "イタンジBB"), ("es_square", "いい生活スクエア")]

/-- `PLATFORM_OPTIONS` from `src/frontend/src/app/knowledge/page.tsx`. -/
def PLATFORM_OPTIONS : List (String × String) :=
  [("itanji", "イタンジBB"), ("ierabu", "いえらぶBB"), ("es_square", "いい生活スクエア")]

/-! ### Spec-modelled URL host notions

The backend (`backend.main:app`) is not part of the sources; the spec's
host-based validation vocabulary is modelled here to state claims about
hosts. -/

/-- Characters after the first occurrence of `sep`, if any. -/
def afterFirst (sep : List Char) : List Char → Option (List Char)
  | [] => none
  | c :: rest =>
    if sep.isPrefixOf (c :: rest) then some ((c :: rest).drop sep.length)
    else afterFirst sep rest

/-- Modelled from the spec: the host component of a submitted URL (the
authority between `://` and the next `/`, `?` or `#`); the repository
contains no backend URL parser under `src/`. -/
def urlHost (s : String) : String :=
  match afterFirst "://".toList s.toList with
  | some rest => String.mk (rest.takeWhile (fun c => c != '/' && c != '?' && c != '#'))
  | none => ""

/-- Modelled from the spec: whether a host belongs to a supported portal
(SUUMO at `suumo.jp`, HOMES at `homes.co.jp`, including subdomains). -/
def hostSupported (h : String) : Bool :=
  h == "suumo.jp" || List.isSuffixOf ".suumo.jp".toList h.toList ||
  h == "homes.co.jp" || List.isSuffixOf ".homes.co.jp".toList h.toList

/-! ### Claim C2: URL validation -/

theorem containsSub_iff (sub l : List Char) : containsSub sub l = true ↔ sub <:+: l := by
  induction l with
  | nil => simp [containsSub, List.isEmpty_iff]
  | cons c rest ih =>
    simp [containsSub, List.infix_cons_iff, ih, List.isPrefixOf_iff_prefix, or_comm]

/-- C2 counterexample: `validateUrl` accepts a URL whose host is not a
supported portal, because it tests substring containment on the whole
URL rather than matching the host.  The URL
`https://evil.example/?ref=suumo.jp` has host `evil.example`, which is
not a supported portal host, yet validation accepts it. -/
theorem validateUrl_accepts_unsupported_host :
    validateUrl "https://evil.example/?ref=suumo.jp" = none ∧
    urlHost "https://evil.example/?ref=suumo.jp" = "evil.example" ∧
    hostSupported "evil.example" = false := by
  refine ⟨by decide, by decide, by decide⟩

/-- C2 (amended): `validateUrl` accepts a submitted URL exactly when its
trimmed text contains `suumo.jp` or `homes.co.jp` as a substring — a
weaker, substring-based check, not a host match; any URL failing this
check is rejected client-side with a classification error message. -/
theorem validateUrl_none_iff (s : String) :
    validateUrl s = none ↔
      ("suumo.jp".toList <:+: (jsTrim s).toList ∨
        "homes.co.jp".toList <:+: (jsTrim s).toList) := by
  have hs : jsIncludes (jsTrim s) "suumo.jp" = true ↔
      "suumo.jp".toList <:+: (jsTrim s).toList := containsSub_iff _ _
  have hh : jsIncludes (jsTrim s) "homes.co.jp" = true ↔
      "homes.co.jp".toList <:+: (jsTrim s).toList := containsSub_iff _ _
  unfold validateUrl
  by_cases h0 : jsTrim s = ""
  · simp [h0, List.infix_nil]
  · by_cases h1 : jsIncludes (jsTrim s) "suumo.jp" = true
    · rw [if_neg h0, if_pos h1]
      exact iff_of_true rfl (Or.inl (hs.mp h1))
    · by_cases h2 : jsIncludes (jsTrim s) "homes.co.jp" = true
      · rw [if_neg h0, if_neg h1, if_pos h2]
        exact iff_of_true rfl (Or.inr (hh.mp h2))
      · rw [if_neg h0, if_neg h1, if_neg h2]
        refine iff_of_false (by simp) ?_
        rintro (h | h)
        exacts [h1 (hs.mpr h), h2 (hh.mpr h)]

/-- C2 witness: a well-formed SUUMO URL (with surrounding whitespace) is
accepted. -/
theorem validateUrl_none_iff_witness :
    validateUrl " https://suumo.jp/chintai/tokyo " = none :=
  (validateUrl_none_iff " https://suumo.jp/chintai/tokyo ").mpr (Or.inl (by decide))

/-! ### Claim C4: channel sets offered by the two interfaces -/

/-- C4 counterexample: the channel-selection page and the knowledge page
do not offer the same channel set — `ierabu` is offered by the
knowledge page only. -/
theorem platform_sets_differ :
    ¬ (∀ k, k ∈ checkPagePlatforms.map Prod.fst ↔ k ∈ PLATFORM_OPTIONS.map Prod.fst) := by
  intro h
  have := (h "ierabu").mpr (by decide)
  exact absurd this (by decide)

/-- C4 (amended): the two interfaces present different channel sets: the
channel-selection page offers exactly `{itanji, es_square}`, the
knowledge page exactly `{itanji, ierabu, es_square}`, and the former is
a strict subset of the latter (`ierabu` is the missing channel). -/
theorem platform_sets_characterized :
    checkPagePlatforms.map Prod.fst = ["itanji", "es_square"] ∧
    PLATFORM_OPTIONS.map Prod.fst = ["itanji", "ierabu", "es_square"] ∧
    (∀ k ∈ checkPagePlatforms.map Prod.fst, k ∈ PLATFORM_OPTIONS.map Prod.fst) ∧
    "ierabu" ∈ PLATFORM_OPTIONS.map Prod.fst ∧
    "ierabu" ∉ checkPagePlatforms.map Prod.fst := by
  refine ⟨by decide, by decide, by decide, by decide, by decide⟩

/-- C4 witness: a channel offered on the channel-selection page is also
offered on the knowledge page. -/
theorem platform_sets_characterized_witness :
    "itanji" ∈ PLATFORM_OPTIONS.map Prod.fst :=
  platform_sets_characterized.2.2.1 "itanji" (by decide)

/-! ### Claim C10: the result-styling function -/

theorem find?_append_first {α : Type} (p : α → Bool) (pre post : List α) (kv : α)
    (hpre : ∀ x ∈ pre, ¬ p x = true) (hkv : p kv = true) :
    List.find? p (pre ++ kv :: post) = some kv := by
  induction pre with
  | nil => simpa using List.find?_cons_of_pos post hkv
  | cons x xs ih =>
    have hx : ¬ p x = true := hpre x (by simp)
    rw [List.cons_append, List.find?_cons_of_neg _ hx]
    exact ih (fun y hy => hpre y (by simp [hy]))

/-- C10: `getResultStyle` is a deterministic total function: an exact
category key returns that category's style; a string that is no key but
has at least one key as a prefix returns the style of the first such key
in declaration order; every other string gets the fixed default.  The
check-detail page's variant behaves the same with its own fixed default
(the `該当なし` style record). -/
theorem getResultStyle_characterized :
    (∀ kv ∈ RESULT_STYLES, getResultStyle kv.1 = kv.2) ∧
    (∀ (r : String) (pre post : List (String × String)) (kv : String × String),
        RESULT_STYLES = pre ++ kv :: post →
        (∀ kv' ∈ RESULT_STYLES, kv'.1 ≠ r) →
        (∀ kv' ∈ pre, ¬ jsStartsWith r kv'.1 = true) →
        jsStartsWith r kv.1 = true →
        getResultStyle r = kv.2) ∧
    (∀ r : String, (∀ kv ∈ RESULT_STYLES, kv.1 ≠ r) →
        (∀ kv ∈ RESULT_STYLES, ¬ jsStartsWith r kv.1 = true) →
        getResultStyle r = "bg-gray-100 text-gray-700") ∧
    (∀ r : String, (∀ kv ∈ RESULT_STYLES_DETAIL, kv.1 ≠ r) →
        (∀ kv ∈ RESULT_STYLES_DETAIL, ¬ jsStartsWith r kv.1 = true) →
        getResultStyleDetail r = ⟨"bg-gray-50", "text-gray-700", "bg-gray-500"⟩) := by
  refine ⟨by decide, ?_, ?_, ?_⟩
  · intro r pre post kv hsplit hexact hpre hkv
    have hnone : RESULT_STYLES.find? (fun kv' => kv'.1 = r) = none :=
      List.find?_eq_none.mpr (fun x hx => by simpa using hexact x hx)
    unfold getResultStyle
    rw [hnone, hsplit, find?_append_first _ pre post kv hpre hkv]
  · intro r hexact hpre
    have hnone : RESULT_STYLES.find? (fun kv' => kv'.1 = r) = none :=
      List.find?_eq_none.mpr (fun x hx => by simpa using hexact x hx)
    have hnone2 : RESULT_STYLES.find? (fun kv' => jsStartsWith r kv'.1) = none :=
      List.find?_eq_none.mpr (fun x hx => by simpa using hpre x hx)
    unfold getResultStyle
    rw [hnone, hnone2]
  · intro r hexact hpre
    have hnone : RESULT_STYLES_DETAIL.find? (fun kv' => kv'.1 = r) = none :=
      List.find?_eq_none.mpr (fun x hx => by simpa using hexact x hx)
    have hnone2 : RESULT_STYLES_DETAIL.find? (fun kv' => jsStartsWith r kv'.1) = none :=
      List.find?_eq_none.mpr (fun x hx => by simpa using hpre x hx)
    unfold getResultStyleDetail
    rw [hnone, hnone2]

/-- C10 witness: a partial-match string such as
`確認不可（専任物件の可能性）` (mentioned in the source comment) takes the
`確認不可` style by prefix; an unrelated string takes the defaults. -/
theorem getResultStyle_characterized_witness :
    getResultStyle "確認不可（専任物件の可能性）" = "bg-orange-100 text-orange-800" ∧
    getResultStyle "未知の結果" = "bg-gray-100 text-gray-700" ∧
    getResultStyleDetail "未知の結果" = ⟨"bg-gray-50", "text-gray-700", "bg-gray-500"⟩ := by
  refine ⟨?_, ?_, ?_⟩
  · exact getResultStyle_characterized.2.1 "確認不可（専任物件の可能性）"
      [("募集中", "bg-green-100 text-green-800"),
       ("申込あり", "bg-yellow-100 text-yellow-800"),
       ("募集終了", "bg-red-100 text-red-800"),
       ("該当なし", "bg-gray-100 text-gray-800")]
      [("電話確認", "bg-blue-100 text-blue-800")]
      ("確認不可", "bg-orange-100 text-orange-800")
      (by decide) (by decide) (by decide) (by decide)
  · exact getResultStyle_characterized.2.2.1 "未知の結果" (by decide) (by decide)
  · exact getResultStyle_characterized.2.2.2 "未知の結果" (by decide) (by decide)

/-! ### Data model

Field names follow the frontend API types (`CheckStatus` in
`src/frontend/src/app/check/[id]/page.tsx`, `KnowledgeItem` in
`knowledge/page.tsx`, `PhoneTask` in `phone-tasks/page.tsx`); the status
vocabulary is the one consumed by the frontend (`STATUS_LABELS` in
`src/unnamed/part_002`). -/

/-- CheckRequest statuses.  The spec's names map as: `awaiting_channel`
= `awaiting_platform`, `resolved` = `done`, `no_match` = `not_found`,
`failed` = `error`. -/
inductive Status where
  | pending | parsing | matching | awaiting_platform | checking
  | done | not_found | error
deriving DecidableEq, Repr

/-- Terminal statuses of the state machine (§4.1). -/
def Status.isTerminal : Status → Bool
  | .done | .not_found | .error => true
  | _ => false

structure CheckRequest where
  id : Nat
  submitted_url : String
  portal_source : String
  property_name : String
  property_address : String
  property_rent : String
  property_area : String
  property_layout : String
  property_build_year : String
  atbb_matched : Bool
  atbb_company : String
  platform : String
  platform_auto : Bool
  status : Status
  vacancy_result : String
  error_message : String
  created_at : Nat
  completed_at : Option Nat
deriving DecidableEq, Repr

structure KnowledgeEntry where
  id : Nat
  company_name : String
  company_phone : String
  platform : String
  use_count : Nat
  last_used_at : Nat
deriving DecidableEq, Repr

inductive TaskStatus where
  | pending | completed | cancelled
deriving DecidableEq, Repr

structure PhoneTask where
  id : Nat
  check_request_id : Option Nat
  company_name : String
  company_phone : String
  property_name : String
  property_address : String
  reason : String
  status : TaskStatus
  note : String
  created_at : Nat
  completed_at : Option Nat
deriving DecidableEq, Repr

/-- Structured attributes extracted from a listing page (§4.1 parsing). -/
structure ParsedProperty where
  name : String
  address : String
  rent : String
  area : String
  layout : String
  build_year : String
deriving DecidableEq, Repr

/-- Vacancy-checker outcome categories (§4.5), which the frontend
renders through `RESULT_STYLES`. -/
inductive CheckOutcome where
  | available | applied | closedOut | unconfirmable | phoneRequired
  | techFailure
deriving DecidableEq, Repr

/-- Normalized vacancy-result label for an outcome (the `RESULT_STYLES`
keys). -/
def categoryLabel : CheckOutcome → String
  | .available => "募集中"
  | .applied => "申込あり"
  | .closedOut => "募集終了"
  | .unconfirmable => "確認不可"
  | .phoneRequired => "電話確認"
  | .techFailure => ""

/-! ### Knowledge store operations

Modelled from the spec: the backend knowledge CRUD (§6), the remembered
upsert and the atomic use-count increment (§4.4) are not under `src/`;
the operator update carries exactly the fields the frontend PUT sends
(`company_name`, `company_phone`, `platform`). -/

inductive KOp where
  | create (name phone platform : String) (t : Nat)
  | update (id : Nat) (name phone platform : String)
  | delete (id : Nat)
  | rememberUpsert (company platform : String) (t : Nat)
  | recordUse (company : String) (t : Nat)
deriving DecidableEq, Repr

/-- Fresh id for a newly created entry. -/
def nextId (store : List KnowledgeEntry) : Nat :=
  store.foldr (fun e acc => max e.id acc) 0 + 1

/-- Modelled from the spec: one atomic knowledge-store operation.
`recordUse` is the §4.4 increment applied on a resolved outcome;
`rememberUpsert` is the §4.4 upsert on a remembered manual choice. -/
def applyOp (store : List KnowledgeEntry) : KOp → List KnowledgeEntry
  | .create name phone platform t =>
      store ++ [⟨nextId store, name, phone, platform, 0, t⟩]
  | .update id name phone platform =>
      store.map fun e =>
        if e.id = id then
          { e with company_name := name, company_phone := phone, platform := platform }
        else e
  | .delete id => store.filter fun e => e.id ≠ id
  | .rememberUpsert company platform t =>
      if store.any (fun e => e.company_name = company) then
        store.map fun e =>
          if e.company_name = company then
            { e with use_count := e.use_count + 1, last_used_at := t }
          else e
      else store ++ [⟨nextId store, company, "", platform, 1, t⟩]
  | .recordUse company t =>
      store.map fun e =>
        if e.company_name = company then
          { e with use_count := e.use_count + 1, last_used_at := t }
        else e

/-- First entry with the given id. -/
def lookupEntry (store : List KnowledgeEntry) (id : Nat) : Option KnowledgeEntry :=
  store.find? fun e => e.id = id

/-- Knowledge entries for a company, in store order (§4.4 lookup). -/
def entriesFor (store : List KnowledgeEntry) (company : String) : List KnowledgeEntry :=
  store.filter fun e => e.company_name = company

/-! ### Phone tasks -/

/-- Phone task generated for a request that reached a phone-required
outcome. -/
def mkPhoneTask (req : CheckRequest) (taskId t : Nat) : PhoneTask :=
  { id := taskId
    check_request_id := some req.id
    company_name := req.atbb_company
    company_phone := ""
    property_name := req.property_name
    property_address := req.property_address
    reason := "ウェブで確認できませんでした"
    status := .pending
    note := ""
    created_at := t
    completed_at := none }

/-- Modelled from the spec: PhoneTask creation is idempotent — a task is
created only if none originating from the same CheckRequest id exists
(§3, "created exactly once per CheckRequest ... idempotent against
retries"). -/
def createPhoneTaskIfAbsent (req : CheckRequest) (tasks : List PhoneTask) (t : Nat) :
    List PhoneTask :=
  if tasks.any (fun pt => pt.check_request_id = some req.id) then tasks
  else tasks ++ [mkPhoneTask req (tasks.length + 1) t]

/-- Number of phone tasks originating from a given CheckRequest id. -/
def tasksFor (id : Nat) (tasks : List PhoneTask) : Nat :=
  (tasks.filter fun pt => pt.check_request_id = some id).length

/-! ### The Check Orchestrator (spec-modelled state machine)

Modelled from the spec: the backend orchestrator (§4.1) is not under
`src/`.  The per-request environment collects the results of the
external interactions (fetch/extraction after bounded retry, dataset
match, knowledge snapshot, final checker outcome after bounded retry),
so one `orchestratorStep` advances the request by one stage. -/

structure PipelineEnv where
  parseResult : Option ParsedProperty
  matchResult : Option String
  knowledge : List KnowledgeEntry
  checkOutcome : CheckOutcome
  now : Nat
deriving Repr

/-- A CheckRequest as created on submission (§6 "Create check"). -/
def newCheckRequest (id : Nat) (url : String) (t : Nat) : CheckRequest :=
  { id := id
    submitted_url := url
    portal_source := ""
    property_name := ""
    property_address := ""
    property_rent := ""
    property_area := ""
    property_layout := ""
    property_build_year := ""
    atbb_matched := false
    atbb_company := ""
    platform := ""
    platform_auto := false
    status := .pending
    vacancy_result := ""
    error_message := ""
    created_at := t
    completed_at := none }

/-- Terminal failure (§4.1 `failed`): records a message and the
completion time. -/
def failWith (req : CheckRequest) (msg : String) (t : Nat) : CheckRequest :=
  { req with status := .error, error_message := msg, completed_at := some t }

/-- Modelled from the spec: one stage transition of the orchestrator
(§4.1).  Terminal states and `awaiting_platform` (which waits for the
external channel-choice call) are fixed points. -/
def orchestratorStep (env : PipelineEnv) :
    CheckRequest × List PhoneTask → CheckRequest × List PhoneTask
  | (req, tasks) =>
    match req.status with
    | .pending => ({ req with status := .parsing }, tasks)
    | .parsing =>
      if hostSupported (urlHost req.submitted_url) then
        match env.parseResult with
        | some p =>
            ({ req with
                status := .matching
                portal_source :=
                  if jsIncludes req.submitted_url "suumo.jp" then "suumo" else "homes"
                property_name := p.name
                property_address := p.address
                property_rent := p.rent
                property_area := p.area
                property_layout := p.layout
                property_build_year := p.build_year }, tasks)
        | none => (failWith req "ページの解析に失敗しました" env.now, tasks)
      else (failWith req "未対応のURLです" env.now, tasks)
    | .matching =>
      match env.matchResult with
      | none =>
          ({ req with
              status := .not_found
              atbb_matched := false
              vacancy_result := "該当なし"
              completed_at := some env.now }, tasks)
      | some comp =>
        match entriesFor env.knowledge comp with
        | [e] =>
            ({ req with
                status := .checking
                atbb_matched := true
                atbb_company := comp
                platform := e.platform
                platform_auto := true }, tasks)
        | _ =>
            ({ req with
                status := .awaiting_platform
                atbb_matched := true
                atbb_company := comp }, tasks)
    | .awaiting_platform => (req, tasks)
    | .checking =>
      match env.checkOutcome with
      | .techFailure => (failWith req "空室確認に失敗しました" env.now, tasks)
      | .unconfirmable | .phoneRequired =>
          ({ req with
              status := .done
              vacancy_result := "電話確認"
              completed_at := some env.now },
            createPhoneTaskIfAbsent req tasks env.now)
      | c =>
          ({ req with
              status := .done
              vacancy_result := categoryLabel c
              completed_at := some env.now }, tasks)
    | .done | .not_found | .error => (req, tasks)

/-- Iterated orchestrator stages. -/
def runSteps (env : PipelineEnv) :
    Nat → CheckRequest × List PhoneTask → CheckRequest × List PhoneTask
  | 0, st => st
  | n + 1, st => runSteps env n (orchestratorStep env st)

/-- Status trace of the pipeline: statuses observed at each stage. -/
def statusTrace (env : PipelineEnv) :
    Nat → CheckRequest × List PhoneTask → List Status
  | 0, st => [st.1.status]
  | n + 1, st => st.1.status :: statusTrace env n (orchestratorStep env st)

/-- Modelled from the spec: the §6 "Submit channel choice" call, valid
only while status is `awaiting_platform` (spec: `awaiting_channel`);
on success the request moves to `checking` and, when `remember` is set,
the knowledge store is upserted (§4.4). -/
def submitPlatform (req : CheckRequest) (platform : String) (remember : Bool)
    (ks : List KnowledgeEntry) (t : Nat) :
    Except String (CheckRequest × List KnowledgeEntry) :=
  if req.status = .awaiting_platform then
    .ok ({ req with status := .checking, platform := platform, platform_auto := false },
      if remember then applyOp ks (.rememberUpsert req.atbb_company platform t) else ks)
  else .error "invalid state"

/-- Requests reachable through the orchestrator's documented mutation
entry points: creation on submission, a stage step, or an accepted
channel choice (§3: "mutated only by the Orchestrator"). -/
inductive Reachable (env : PipelineEnv) : CheckRequest → Prop where
  | submit (id : Nat) (url : String) (t : Nat) :
      Reachable env (newCheckRequest id url t)
  | step {r : CheckRequest} (tasks : List PhoneTask) :
      Reachable env r → Reachable env (orchestratorStep env (r, tasks)).1
  | choose {r req' : CheckRequest} {ks' : List KnowledgeEntry}
      (p : String) (rem : Bool) (ks : List KnowledgeEntry) (t : Nat) :
      Reachable env r → submitPlatform r p rem ks t = .ok (req', ks') →
      Reachable env req'

/-! ### State-machine invariants (claims C1 and C8) -/

/-- The §3 CheckRequest invariants: a completion timestamp is only ever
present in a terminal status, and the vacancy outcome is set exactly in
the `done` and `not_found` statuses. -/
def goodReq (r : CheckRequest) : Prop :=
  (r.completed_at ≠ none → r.status.isTerminal = true) ∧
  (r.vacancy_result ≠ "" ↔ (r.status = .done ∨ r.status = .not_found))

theorem good_newCheckRequest (id : Nat) (url : String) (t : Nat) :
    goodReq (newCheckRequest id url t) := by
  constructor
  · intro h; exact absurd rfl h
  · simp [newCheckRequest]

theorem good_step (env : PipelineEnv) (r : CheckRequest) (tasks : List PhoneTask)
    (h : goodReq r) : goodReq (orchestratorStep env (r, tasks)).1 := by
  obtain ⟨h1, h2⟩ := h
  have hcn : r.status.isTerminal = false → r.completed_at = none := by
    intro hf
    by_contra hne
    rw [h1 hne] at hf
    cases hf
  have hvn : r.status ≠ .done → r.status ≠ .not_found → r.vacancy_result = "" := by
    intro hd hn
    by_contra hne
    rcases h2.mp hne with h | h
    exacts [hd h, hn h]
  cases hst : r.status with
  | pending =>
    have hc := hcn (by rw [hst]; rfl)
    have hv := hvn (by rw [hst]; exact fun h => nomatch h) (by rw [hst]; exact fun h => nomatch h)
    simp [orchestratorStep, hst, goodReq, hc, hv]
  | parsing =>
    have hv := hvn (by rw [hst]; exact fun h => nomatch h) (by rw [hst]; exact fun h => nomatch h)
    have hc := hcn (by rw [hst]; rfl)
    by_cases hh : hostSupported (urlHost r.submitted_url) = true
    · cases hp : env.parseResult with
      | some p => simp [orchestratorStep, hst, hh, hp, goodReq, hc, hv]
      | none => simp [orchestratorStep, hst, hh, hp, goodReq, failWith, hv, Status.isTerminal]
    · simp [orchestratorStep, hst, hh, goodReq, failWith, hv, Status.isTerminal]
  | matching =>
    have hv := hvn (by rw [hst]; exact fun h => nomatch h) (by rw [hst]; exact fun h => nomatch h)
    have hc := hcn (by rw [hst]; rfl)
    cases hm : env.matchResult with
    | none => simp [orchestratorStep, hst, hm, goodReq, Status.isTerminal]
    | some comp =>
      cases he : entriesFor env.knowledge comp with
      | nil => simp [orchestratorStep, hst, hm, he, goodReq, hc, hv]
      | cons e rest =>
        cases rest with
        | nil => simp [orchestratorStep, hst, hm, he, goodReq, hc, hv]
        | cons f rest2 => simp [orchestratorStep, hst, hm, he, goodReq, hc, hv]
  | awaiting_platform =>
    simp only [orchestratorStep, hst]
    exact ⟨fun hne => h1 hne, h2⟩
  | checking =>
    have hv := hvn (by rw [hst]; exact fun h => nomatch h) (by rw [hst]; exact fun h => nomatch h)
    cases ho : env.checkOutcome with
    | techFailure => simp [orchestratorStep, hst, ho, goodReq, failWith, hv, Status.isTerminal]
    | unconfirmable => simp [orchestratorStep, hst, ho, goodReq, Status.isTerminal]
    | phoneRequired => simp [orchestratorStep, hst, ho, goodReq, Status.isTerminal]
    | available => simp [orchestratorStep, hst, ho, goodReq, categoryLabel, Status.isTerminal]
    | applied => simp [orchestratorStep, hst, ho, goodReq, categoryLabel, Status.isTerminal]
    | closedOut => simp [orchestratorStep, hst, ho, goodReq, categoryLabel, Status.isTerminal]
  | done =>
    simp only [orchestratorStep, hst]
    exact ⟨fun hne => h1 hne, h2⟩
  | not_found =>
    simp only [orchestratorStep, hst]
    exact ⟨fun hne => h1 hne, h2⟩
  | error =>
    simp only [orchestratorStep, hst]
    exact ⟨fun hne => h1 hne, h2⟩

theorem good_choose {r req' : CheckRequest} {ks' : List KnowledgeEntry}
    (p : String) (rem : Bool) (ks : List KnowledgeEntry) (t : Nat)
    (h : goodReq r) (hok : submitPlatform r p rem ks t = .ok (req', ks')) :
    goodReq req' := by
  obtain ⟨h1, h2⟩ := h
  unfold submitPlatform at hok
  by_cases hst : r.status = .awaiting_platform
  · rw [if_pos hst] at hok
    injection hok with hpair
    have hreq : req' = { r with status := .checking, platform := p, platform_auto := false } :=
      (congrArg Prod.fst hpair).symm
    have hc : r.completed_at = none := by
      by_contra hne
      have := h1 hne
      rw [hst] at this
      cases this
    have hv : r.vacancy_result = "" := by
      by_contra hne
      rcases h2.mp hne with hh | hh <;> rw [hst] at hh <;> cases hh
    subst hreq
    simp [goodReq, hc, hv]
  · rw [if_neg hst] at hok
    cases hok

theorem reachable_good {env : PipelineEnv} {r : CheckRequest}
    (h : Reachable env r) : goodReq r := by
  induction h with
  | submit id url t => exact good_newCheckRequest id url t
  | step tasks _ ih => exact good_step _ _ tasks ih
  | choose p rem ks t _ hok ih => exact good_choose p rem ks t ih hok

theorem reachable_runSteps {env : PipelineEnv} :
    ∀ (n : Nat) (st : CheckRequest × List PhoneTask),
      Reachable env st.1 → Reachable env (runSteps env n st).1 := by
  intro n
  induction n with
  | zero => intro st h; exact h
  | succ m ih =>
    intro st h
    exact ih (orchestratorStep env st) (Reachable.step st.2 h)

/-! ### Claim C1 -/

/-- A parsed listing used by the concrete scenarios. -/
def demoParsed : ParsedProperty :=
  ⟨"Aマンション", "東京都X区1-2-3", "10万円", "25m2", "1K", "2010年"⟩

/-- Environment in which the dataset match fails. -/
def demoEnvNoMatch : PipelineEnv :=
  ⟨some demoParsed, none, [], .available, 100⟩

/-- The request after the pipeline declares no match. -/
def demoReqNF : CheckRequest :=
  (runSteps demoEnvNoMatch 3 (newCheckRequest 1 "https://suumo.jp/a" 50, [])).1

/-- C1 counterexample: a pipeline run that ends in the `not_found`
(no-match) terminal status carries the vacancy outcome `該当なし`, so
the outcome is not set "iff status is terminal-resolved" and a
`no_match` request does not carry an empty outcome. -/
theorem no_match_carries_outcome :
    demoReqNF.status = .not_found ∧ demoReqNF.vacancy_result = "該当なし" ∧
    demoReqNF.vacancy_result ≠ "" := by
  refine ⟨by decide, by decide, by decide⟩

/-- C1 (amended): for every request reachable through the orchestrator,
the vacancy outcome is set if and only if the status is `done`
(terminal-resolved) or `not_found` (no-match, which records the
"no corresponding record" category per §4.1); a `failed` request
carries no outcome. -/
theorem outcome_iff_done_or_not_found (env : PipelineEnv) (r : CheckRequest)
    (h : Reachable env r) :
    r.vacancy_result ≠ "" ↔ (r.status = .done ∨ r.status = .not_found) :=
  (reachable_good h).2

/-- C1 witness: the no-match request is reachable, and its outcome is
set while its status is `not_found`. -/
theorem outcome_iff_done_or_not_found_witness :
    demoReqNF.vacancy_result ≠ "" ↔
      (demoReqNF.status = .done ∨ demoReqNF.status = .not_found) :=
  outcome_iff_done_or_not_found demoEnvNoMatch demoReqNF
    (reachable_runSteps 3 (newCheckRequest 1 "https://suumo.jp/a" 50, [])
      (Reachable.submit 1 "https://suumo.jp/a" 50))

/-! ### Claim C8 -/

/-- C8: once `completed_at` is set, a reachable CheckRequest is left
unchanged by every subsequent operation: an orchestrator stage step
returns the snapshot (and task list) unchanged, and the channel-choice
call is rejected.  Re-reads of the snapshot are therefore idempotent. -/
theorem completed_snapshot_immutable (env : PipelineEnv) (r : CheckRequest)
    (h : Reachable env r) (hc : r.completed_at ≠ none) :
    (∀ tasks, orchestratorStep env (r, tasks) = (r, tasks)) ∧
    (∀ p rem ks t, submitPlatform r p rem ks t = .error "invalid state") := by
  have hterm := (reachable_good h).1 hc
  constructor
  · intro tasks
    cases hst : r.status <;> rw [hst] at hterm <;> first
      | exact absurd hterm (by decide)
      | simp [orchestratorStep, hst]
  · intro p rem ks t
    have hne : r.status ≠ .awaiting_platform := by
      intro hh
      rw [hh] at hterm
      cases hterm
    unfold submitPlatform
    rw [if_neg hne]

/-- C8 witness: the completed no-match request is untouched by a further
stage step and rejects the channel-choice call. -/
theorem completed_snapshot_immutable_witness :
    orchestratorStep demoEnvNoMatch (demoReqNF, []) = (demoReqNF, []) ∧
    submitPlatform demoReqNF "itanji" true [] 200 = .error "invalid state" := by
  have h := completed_snapshot_immutable demoEnvNoMatch demoReqNF
    (reachable_runSteps 3 (newCheckRequest 1 "https://suumo.jp/a" 50, [])
      (Reachable.submit 1 "https://suumo.jp/a" 50))
    (by decide)
  exact ⟨h.1 [], h.2 "itanji" true [] 200⟩

/-! ### Claim C3: the channel-choice guard -/

/-- C3: the channel-choice call succeeds and moves the request to
`checking` exactly when its status is `awaiting_platform` (spec:
`awaiting_channel`); in any other status the call is rejected and no
state is produced. -/
theorem submitPlatform_guard (req : CheckRequest) (p : String) (rem : Bool)
    (ks : List KnowledgeEntry) (t : Nat) :
    (req.status = .awaiting_platform →
      submitPlatform req p rem ks t =
        .ok ({ req with status := .checking, platform := p, platform_auto := false },
          if rem then applyOp ks (.rememberUpsert req.atbb_company p t) else ks)) ∧
    (req.status ≠ .awaiting_platform →
      submitPlatform req p rem ks t = .error "invalid state") := by
  constructor
  · intro h
    unfold submitPlatform
    rw [if_pos h]
  · intro h
    unfold submitPlatform
    rw [if_neg h]

/-- A request waiting for an explicit channel choice, used by the
concrete scenarios. -/
def demoAwaitingReq : CheckRequest :=
  { newCheckRequest 2 "https://suumo.jp/b" 60 with
      status := .awaiting_platform, atbb_matched := true, atbb_company := "B社" }

/-- C3 witness: the call succeeds on an `awaiting_platform` request and
is rejected on a completed one. -/
theorem submitPlatform_guard_witness :
    submitPlatform demoAwaitingReq "es_square" false [] 70 =
      .ok ({ demoAwaitingReq with
              status := .checking, platform := "es_square", platform_auto := false },
        []) ∧
    submitPlatform demoReqNF "es_square" false [] 70 = .error "invalid state" :=
  ⟨(submitPlatform_guard demoAwaitingReq "es_square" false [] 70).1 rfl,
   (submitPlatform_guard demoReqNF "es_square" false [] 70).2 (by decide)⟩

/-! ### Claim C5: at most one PhoneTask per request -/

/-- Modelled from the spec: the checking stage's classification step,
re-executed on retries; every phone-required classification goes through
the idempotent task creation (§3, §4.5). -/
def runClassification (req : CheckRequest) (t : Nat) :
    List CheckOutcome → List PhoneTask → List PhoneTask
  | [], tasks => tasks
  | a :: rest, tasks =>
    match a with
    | .unconfirmable | .phoneRequired =>
        runClassification req t rest (createPhoneTaskIfAbsent req tasks t)
    | _ => runClassification req t rest tasks

theorem tasksFor_create_le_one (req : CheckRequest) (tasks : List PhoneTask) (t : Nat)
    (h : tasksFor req.id tasks ≤ 1) :
    tasksFor req.id (createPhoneTaskIfAbsent req tasks t) ≤ 1 := by
  unfold createPhoneTaskIfAbsent
  by_cases hany : tasks.any (fun pt => pt.check_request_id = some req.id) = true
  · rw [if_pos hany]
    exact h
  · rw [if_neg hany]
    have hnil : tasks.filter (fun pt => pt.check_request_id = some req.id) = [] := by
      rw [List.filter_eq_nil_iff]
      intro pt hpt
      intro hc
      exact hany (List.any_eq_true.mpr ⟨pt, hpt, hc⟩)
    unfold tasksFor
    rw [List.filter_append, hnil]
    simp [mkPhoneTask]

theorem runClassification_le_one (req : CheckRequest) (t : Nat) :
    ∀ (attempts : List CheckOutcome) (tasks : List PhoneTask),
      tasksFor req.id tasks ≤ 1 →
      tasksFor req.id (runClassification req t attempts tasks) ≤ 1 := by
  intro attempts
  induction attempts with
  | nil => intro tasks h; exact h
  | cons a rest ih =>
    intro tasks h
    cases a with
    | unconfirmable => exact ih _ (tasksFor_create_le_one req tasks t h)
    | phoneRequired => exact ih _ (tasksFor_create_le_one req tasks t h)
    | available => exact ih _ h
    | applied => exact ih _ h
    | closedOut => exact ih _ h
    | techFailure => exact ih _ h

theorem runClassification_no_phone (req : CheckRequest) (t : Nat) :
    ∀ (attempts : List CheckOutcome) (tasks : List PhoneTask),
      (∀ a ∈ attempts, a ≠ .unconfirmable ∧ a ≠ .phoneRequired) →
      runClassification req t attempts tasks = tasks := by
  intro attempts
  induction attempts with
  | nil => intro tasks _; rfl
  | cons a rest ih =>
    intro tasks h
    have ha := h a (by simp)
    have hrest : ∀ b ∈ rest, b ≠ CheckOutcome.unconfirmable ∧ b ≠ CheckOutcome.phoneRequired :=
      fun b hb => h b (by simp [hb])
    cases a with
    | unconfirmable => exact absurd rfl ha.1
    | phoneRequired => exact absurd rfl ha.2
    | available => exact ih tasks hrest
    | applied => exact ih tasks hrest
    | closedOut => exact ih tasks hrest
    | techFailure => exact ih tasks hrest

/-- C5: starting from a task store holding no task for the request, any
sequence of (possibly retried) classification attempts creates at most
one PhoneTask originating from that request id, and creates none at all
when no attempt yields a phone-required outcome. -/
theorem phone_task_unique (req : CheckRequest) (t : Nat)
    (attempts : List CheckOutcome) (tasks : List PhoneTask)
    (h0 : tasksFor req.id tasks = 0) :
    tasksFor req.id (runClassification req t attempts tasks) ≤ 1 ∧
    ((∀ a ∈ attempts, a ≠ .unconfirmable ∧ a ≠ .phoneRequired) →
      tasksFor req.id (runClassification req t attempts tasks) = 0) := by
  constructor
  · exact runClassification_le_one req t attempts tasks (by rw [h0]; exact Nat.zero_le 1)
  · intro h
    rw [runClassification_no_phone req t attempts tasks h]
    exact h0

/-- C5 witness: retried phone-required classifications still produce one
task; a run with no phone-required outcome produces none. -/
theorem phone_task_unique_witness :
    tasksFor demoAwaitingReq.id
        (runClassification demoAwaitingReq 90
          [.techFailure, .phoneRequired, .phoneRequired] []) ≤ 1 ∧
    tasksFor demoAwaitingReq.id
        (runClassification demoAwaitingReq 90 [.techFailure, .available] []) = 0 :=
  ⟨(phone_task_unique demoAwaitingReq 90 [.techFailure, .phoneRequired, .phoneRequired]
      [] (by decide)).1,
   (phone_task_unique demoAwaitingReq 90 [.techFailure, .available] []
      (by decide)).2 (by decide)⟩

/-! ### Claim C7: auto-selection on a unique KnowledgeEntry -/

/-- C7: when the matched company has exactly one KnowledgeEntry, the
pipeline goes straight to `checking` with the auto-select flag set and
that entry's channel, and the `awaiting_platform` state never appears in
the request's status trace. -/
theorem auto_select_single_entry (env : PipelineEnv) (id0 : Nat) (url : String) (t : Nat)
    (comp : String) (e : KnowledgeEntry) (p : ParsedProperty)
    (hhost : hostSupported (urlHost url) = true)
    (hparse : env.parseResult = some p)
    (hmatch : env.matchResult = some comp)
    (hentries : entriesFor env.knowledge comp = [e]) :
    Status.awaiting_platform ∉ statusTrace env 5 (newCheckRequest id0 url t, []) ∧
    Status.checking ∈ statusTrace env 5 (newCheckRequest id0 url t, []) ∧
    (runSteps env 5 (newCheckRequest id0 url t, [])).1.platform = e.platform ∧
    (runSteps env 5 (newCheckRequest id0 url t, [])).1.platform_auto = true := by
  cases ho : env.checkOutcome <;>
    simp [statusTrace, runSteps, orchestratorStep, newCheckRequest, hhost, hparse,
      hmatch, hentries, ho, failWith, createPhoneTaskIfAbsent, categoryLabel]

/-- Knowledge store with a single entry for company `B社`. -/
def demoKnowledge : List KnowledgeEntry :=
  [⟨1, "B社", "03-1234-5678", "itanji", 2, 10⟩]

/-- Environment where the match succeeds and `B社` has exactly one
KnowledgeEntry. -/
def demoEnvAuto : PipelineEnv :=
  ⟨some demoParsed, some "B社", demoKnowledge, .available, 100⟩

/-- C7 witness: the concrete single-entry scenario auto-selects
`itanji` and never waits for a channel choice. -/
theorem auto_select_single_entry_witness :
    Status.awaiting_platform ∉ statusTrace demoEnvAuto 5 (newCheckRequest 4 "https://suumo.jp/c" 80, []) ∧
    Status.checking ∈ statusTrace demoEnvAuto 5 (newCheckRequest 4 "https://suumo.jp/c" 80, []) ∧
    (runSteps demoEnvAuto 5 (newCheckRequest 4 "https://suumo.jp/c" 80, [])).1.platform =
      (⟨1, "B社", "03-1234-5678", "itanji", 2, 10⟩ : KnowledgeEntry).platform ∧
    (runSteps demoEnvAuto 5 (newCheckRequest 4 "https://suumo.jp/c" 80, [])).1.platform_auto = true :=
  auto_select_single_entry demoEnvAuto 4 "https://suumo.jp/c" 80 "B社"
    ⟨1, "B社", "03-1234-5678", "itanji", 2, 10⟩ demoParsed
    (by decide) rfl rfl (by decide)

/-! ### Claim C6: use_count monotonicity and exact increments -/

/-- Use count of the entry with the given id, if present. -/
def lookupUseCount (store : List KnowledgeEntry) (id : Nat) : Option Nat :=
  (lookupEntry store id).map (fun e => e.use_count)

theorem lookupEntry_map (f : KnowledgeEntry → KnowledgeEntry)
    (hf : ∀ e, (f e).id = e.id) (store : List KnowledgeEntry) (id : Nat) :
    lookupEntry (store.map f) id = (lookupEntry store id).map f := by
  induction store with
  | nil => rfl
  | cons e rest ih =>
    unfold lookupEntry at *
    by_cases h : e.id = id
    · rw [List.map_cons, List.find?_cons_of_pos _ (by simp [hf, h]),
        List.find?_cons_of_pos _ (by simp [h])]
      rfl
    · rw [List.map_cons, List.find?_cons_of_neg _ (by simp [hf, h]),
        List.find?_cons_of_neg _ (by simp [h]), ih]

theorem lookupEntry_append (store extra : List KnowledgeEntry) (id : Nat)
    (e : KnowledgeEntry) (h : lookupEntry store id = some e) :
    lookupEntry (store ++ extra) id = some e := by
  induction store with
  | nil => cases h
  | cons x rest ih =>
    unfold lookupEntry at *
    by_cases hx : x.id = id
    · rw [List.find?_cons_of_pos _ (by simp [hx])] at h
      rw [List.cons_append, List.find?_cons_of_pos _ (by simp [hx])]
      exact h
    · rw [List.find?_cons_of_neg _ (by simp [hx])] at h
      rw [List.cons_append, List.find?_cons_of_neg _ (by simp [hx])]
      exact ih h

theorem find?_filter_of_imp {α : Type} (p q : α → Bool) (l : List α)
    (h : ∀ x, p x = true → q x = true) :
    (l.filter q).find? p = l.find? p := by
  induction l with
  | nil => rfl
  | cons x rest ih =>
    by_cases hq : q x = true
    · rw [List.filter_cons_of_pos hq]
      by_cases hp : p x = true
      · rw [List.find?_cons_of_pos _ hp, List.find?_cons_of_pos _ hp]
      · rw [List.find?_cons_of_neg _ hp, List.find?_cons_of_neg _ hp, ih]
    · rw [List.filter_cons_of_neg (by simpa using hq)]
      have hp : ¬ p x = true := fun hp => hq (h x hp)
      rw [List.find?_cons_of_neg _ hp, ih]

theorem lookup_map_eq (f : KnowledgeEntry → KnowledgeEntry)
    (hf : ∀ x, (f x).id = x.id) {store : List KnowledgeEntry} {id : Nat}
    {e e' : KnowledgeEntry} (h : lookupEntry store id = some e)
    (h' : lookupEntry (store.map f) id = some e') : e' = f e := by
  rw [lookupEntry_map f hf, h] at h'
  exact (Option.some.inj h').symm

theorem applyOp_use_count_mono (store : List KnowledgeEntry) (op : KOp) (id : Nat)
    (e e' : KnowledgeEntry) (h : lookupEntry store id = some e)
    (h' : lookupEntry (applyOp store op) id = some e') :
    e'.use_count = e.use_count ∨ e'.use_count = e.use_count + 1 := by
  cases op with
  | create name phone platform t =>
    rw [applyOp, lookupEntry_append store _ id e h] at h'
    rw [Option.some.inj h']
    exact Or.inl rfl
  | update id0 name phone platform =>
    have := lookup_map_eq _ (fun x => by by_cases hx : x.id = id0 <;> simp [hx]) h h'
    rw [this]
    by_cases hx : e.id = id0 <;> simp [hx]
  | delete id0 =>
    by_cases hid : id = id0
    · subst hid
      exfalso
      rw [applyOp] at h'
      have hmem := List.mem_of_find?_eq_some h'
      have hp := List.find?_some h'
      rw [List.mem_filter] at hmem
      simp only [decide_eq_true_eq] at hp
      have hne : e'.id ≠ id := by simpa using hmem.2
      exact hne hp
    · rw [applyOp] at h'
      rw [lookupEntry, find?_filter_of_imp _ _ store
          (fun x hx => by
            simp only [decide_eq_true_eq] at hx
            simp [hx, hid])] at h'
      rw [lookupEntry] at h
      rw [h] at h'
      rw [Option.some.inj h']
      exact Or.inl rfl
  | rememberUpsert comp platform t =>
    rw [applyOp] at h'
    by_cases hc : store.any (fun x => x.company_name = comp) = true
    · rw [if_pos hc] at h'
      have := lookup_map_eq _
        (fun x => by by_cases hx : x.company_name = comp <;> simp [hx]) h h'
      rw [this]
      by_cases hx : e.company_name = comp <;> simp [hx]
    · rw [if_neg hc] at h'
      rw [lookupEntry_append store _ id e h] at h'
      rw [Option.some.inj h']
      exact Or.inl rfl
  | recordUse comp t =>
    have := lookup_map_eq _
      (fun x => by by_cases hx : x.company_name = comp <;> simp [hx]) h h'
    rw [this]
    by_cases hx : e.company_name = comp <;> simp [hx]

theorem lookupEntry_recordUse (store : List KnowledgeEntry) (comp : String)
    (t id : Nat) (e : KnowledgeEntry) (h : lookupEntry store id = some e) :
    lookupEntry (applyOp store (.recordUse comp t)) id =
      some (if e.company_name = comp then
        { e with use_count := e.use_count + 1, last_used_at := t } else e) := by
  rw [applyOp, lookupEntry_map _
    (fun x => by by_cases hx : x.company_name = comp <;> simp [hx]), h]
  by_cases hx : e.company_name = comp <;> simp [hx]

/-- N independent resolutions for the same company, applied one after
another (any serialization of N concurrent atomic increments, per §5). -/
def iterRecordUse (comp : String) (t : Nat) : Nat → List KnowledgeEntry → List KnowledgeEntry
  | 0, store => store
  | n + 1, store => iterRecordUse comp t n (applyOp store (.recordUse comp t))

theorem iterRecordUse_count (comp : String) (t : Nat) :
    ∀ (n : Nat) (store : List KnowledgeEntry) (id : Nat) (e : KnowledgeEntry),
      lookupEntry store id = some e → e.company_name = comp →
      lookupUseCount (iterRecordUse comp t n store) id = some (e.use_count + n) := by
  intro n
  induction n with
  | zero =>
    intro store id e h hc
    rw [iterRecordUse, lookupUseCount, h]
    rfl
  | succ m ih =>
    intro store id e h hc
    have h1 := lookupEntry_recordUse store comp t id e h
    rw [if_pos hc] at h1
    have h2 := ih (applyOp store (.recordUse comp t)) id _ h1 hc
    have hcount : ({ e with use_count := e.use_count + 1, last_used_at := t } :
        KnowledgeEntry).use_count = e.use_count + 1 := rfl
    rw [iterRecordUse, h2, hcount]
    congr 1
    omega

/-- C6: every knowledge-store operation leaves an entry's `use_count`
unchanged or increments it by one (never decrements), and N successful
resolutions for the entry's company — serialized atomic increments, per
the §5 concurrency contract — raise it by exactly N. -/
theorem use_count_mono_and_exact :
    (∀ (store : List KnowledgeEntry) (op : KOp) (id : Nat) (e e' : KnowledgeEntry),
        lookupEntry store id = some e →
        lookupEntry (applyOp store op) id = some e' →
        (e'.use_count = e.use_count ∨ e'.use_count = e.use_count + 1)) ∧
    (∀ (comp : String) (t n : Nat) (store : List KnowledgeEntry) (id : Nat)
        (e : KnowledgeEntry),
        lookupEntry store id = some e → e.company_name = comp →
        lookupUseCount (iterRecordUse comp t n store) id = some (e.use_count + n)) :=
  ⟨applyOp_use_count_mono, fun comp t n => iterRecordUse_count comp t n⟩

/-- C6 witness: one recorded use bumps the demo entry from 2 to 3, and
three serialized resolutions bring it to 2 + 3. -/
theorem use_count_mono_and_exact_witness :
    ((⟨1, "B社", "03-1234-5678", "itanji", 3, 50⟩ : KnowledgeEntry).use_count =
        (⟨1, "B社", "03-1234-5678", "itanji", 2, 10⟩ : KnowledgeEntry).use_count ∨
      (⟨1, "B社", "03-1234-5678", "itanji", 3, 50⟩ : KnowledgeEntry).use_count =
        (⟨1, "B社", "03-1234-5678", "itanji", 2, 10⟩ : KnowledgeEntry).use_count + 1) ∧
    lookupUseCount (iterRecordUse "B社" 99 3 demoKnowledge) 1 =
      some ((⟨1, "B社", "03-1234-5678", "itanji", 2, 10⟩ : KnowledgeEntry).use_count + 3) :=
  ⟨use_count_mono_and_exact.1 demoKnowledge (.recordUse "B社" 50) 1 _ _
      (by decide) (by decide),
   use_count_mono_and_exact.2 "B社" 99 3 demoKnowledge 1 _ (by decide) rfl⟩

/-! ### Claim C9: the list-checks contract -/

/-- Newest-first comparison on creation timestamps. -/
def newestFirst (a b : CheckRequest) : Prop := b.created_at ≤ a.created_at

instance : DecidableRel newestFirst := fun _a _b => Nat.decLe _ _

instance : IsTotal CheckRequest newestFirst :=
  ⟨fun a b => Nat.le_total b.created_at a.created_at⟩

instance : IsTrans CheckRequest newestFirst :=
  ⟨fun _x _y _z hab hbc => Nat.le_trans hbc hab⟩

/-- Modelled from the spec: the §6 "List checks" read — the most recent
N CheckRequests, newest first; the backend handler is not under `src/`
(the frontend calls it as `GET /api/checks?limit=20` in
`src/unnamed/part_002`). -/
def listChecks (reqs : List CheckRequest) (n : Nat) : List CheckRequest :=
  (List.insertionSort newestFirst reqs).take n

/-- C9: `listChecks` returns `min n |reqs|` requests, sorted newest
first, and they dominate (by creation time) everything left out. -/
theorem listChecks_spec (reqs : List CheckRequest) (n : Nat) :
    (listChecks reqs n).length = min n reqs.length ∧
    (listChecks reqs n).Sorted newestFirst ∧
    ∃ rest, reqs.Perm (listChecks reqs n ++ rest) ∧
      ∀ x ∈ listChecks reqs n, ∀ y ∈ rest, y.created_at ≤ x.created_at := by
  refine ⟨?_, ?_, ?_⟩
  · rw [listChecks, List.length_take,
      (List.perm_insertionSort newestFirst reqs).length_eq]
  · exact (List.sorted_insertionSort newestFirst reqs).sublist
      (List.take_sublist n _)
  · refine ⟨(List.insertionSort newestFirst reqs).drop n, ?_, ?_⟩
    · rw [listChecks, List.take_append_drop]
      exact (List.perm_insertionSort newestFirst reqs).symm
    · have hs := List.sorted_insertionSort newestFirst reqs
      rw [← List.take_append_drop n (List.insertionSort newestFirst reqs)] at hs
      have := (List.pairwise_append.mp hs).2.2
      exact fun x hx y hy => this x hx y hy

/-- Three submissions with out-of-order creation times. -/
def demoChecks : List CheckRequest :=
  [newCheckRequest 1 "https://suumo.jp/a" 5,
   newCheckRequest 2 "https://suumo.jp/b" 9,
   newCheckRequest 3 "https://suumo.jp/c" 7]

/-- C9 witness: the contract instantiated on the three demo requests
with limit 2. -/
theorem listChecks_spec_witness :
    (listChecks demoChecks 2).length = min 2 demoChecks.length ∧
    (listChecks demoChecks 2).Sorted newestFirst ∧
    ∃ rest, demoChecks.Perm (listChecks demoChecks 2 ++ rest) ∧
      ∀ x ∈ listChecks demoChecks 2, ∀ y ∈ rest, y.created_at ≤ x.created_at :=
  listChecks_spec demoChecks 2

end Akikaku
